import Mathlib

/-!
Shallow embedding of `wrapper.py`: the `Monitor` progress-reporting iterator
and the `predict_img` inference pipeline, together with theorems checking the
specification's claims against these definitions.

Modelling conventions: Python integers are `ℤ` (or `ℕ` for lengths and
indices), Python floats are modelled as exact rationals `ℚ`, a Python
generator over a re-enumerable source is a `List`, and the side-effecting
`job.update(progress, statusComment)` calls are collected as explicit
`Update` records in the order they would be issued.
-/

/-- Truncation of a rational toward zero, embedding Python's `int()` applied
to a (modelled-as-rational) float: `int(q)` drops the fractional part toward
zero, which on `num/den` with positive denominator is `Int.tdiv`. -/
def ratTrunc (q : ℚ) : ℤ := q.num.tdiv q.den

/-- The period argument of `Monitor.__init__`: Python `None`, a Python `int`,
or a Python `float` (modelled as an exact rational). -/
inductive Period where
  | none : Period
  | int (p : ℤ) : Period
  | frac (f : ℚ) : Period
deriving DecidableEq

/-- One invocation of `self._job.job.update(progress=..., statusComment=...)`:
the two computed arguments of the progress callback. -/
structure Update where
  progress : ℤ
  statusComment : String
deriving DecidableEq

/-- State of `Monitor.__init__(job, iterable, start, end, period, prefix)`.
The external `job` object is not part of the model (its `update` method is the
callback whose invocations we collect); `pfx` embeds `self._prefix`, `period`
embeds `self._update_period`, and the re-enumerable iterable is a list.
Defaults mirror the Python defaults (`prefix=None` renders as "None" when
formatted). -/
structure Monitor (α : Type) where
  iterable : List α
  start : ℤ := 0
  «end» : ℤ := 100
  period : Period := Period.none
  pfx : String := "None"

/-- Embeds `Monitor.__len__`: `len(list(self._iterable))`. -/
def Monitor.len {α : Type} (m : Monitor α) : ℕ := m.iterable.length

/-- Embeds `Monitor._get_period(n_iter)`: `None` stays `None`; a float period
becomes `max(int(period * n_iter), 1)`; an int period is returned unchanged. -/
def Monitor.getPeriod {α : Type} (m : Monitor α) (n_iter : ℕ) : Option ℤ :=
  match m.period with
  | Period.none => Option.none
  | Period.frac f => Option.some (max (ratTrunc (f * n_iter)) 1)
  | Period.int p => Option.some p

/-- Embeds `Monitor._relative_progress(ratio)`:
`int(self._start + (self._end - self._start) * ratio)`. -/
def Monitor.relativeProgress {α : Type} (m : Monitor α) (ratio : ℚ) : ℤ :=
  ratTrunc ((m.start : ℚ) + ((m.«end» : ℚ) - (m.start : ℚ)) * ratio)

/-- Embeds the report condition of `Monitor.__iter__` at index `i`:
`period is None or i % period == 0`, with the period recomputed from `total`
as in the source. Python's `%` on a nonnegative dividend and positive divisor
agrees with `Int.emod`. -/
def Monitor.reportsAt {α : Type} (m : Monitor α) (total i : ℕ) : Bool :=
  match m.getPeriod total with
  | Option.none => true
  | Option.some p => (i : ℤ) % p == 0

/-- Embeds the two arguments computed for `self._job.job.update` at index `i`
in `Monitor.__iter__`: the status comment
`"{} ({}/{}).".format(self._prefix, i + 1, len(self))` and the progress value
`self._relative_progress(i / float(total))`. -/
def Monitor.updateAt {α : Type} (m : Monitor α) (total i : ℕ) : Update :=
  { progress := m.relativeProgress ((i : ℚ) / (total : ℚ))
  , statusComment :=
      m.pfx ++ " (" ++ toString (i + 1) ++ "/" ++ toString m.len ++ ")." }

/-- Loop body of `Monitor.__iter__` from index `i` over the remaining
elements: each yielded element is paired with the callback invocation (if any)
issued immediately before yielding it. -/
def Monitor.iterFrom {α : Type} (m : Monitor α) (total : ℕ) :
    ℕ → List α → List (α × Option Update)
  | _, [] => []
  | i, v :: rest =>
    (v, if m.reportsAt total i then Option.some (m.updateAt total i)
        else Option.none) :: m.iterFrom total (i + 1) rest

/-- Embeds `Monitor.__iter__`: `total = len(self)`, then
`for i, v in enumerate(self._iterable)` yielding every element, reporting
when the period condition holds. -/
def Monitor.iter {α : Type} (m : Monitor α) : List (α × Option Update) :=
  m.iterFrom m.len 0 m.iterable

/-- The sequence of elements yielded by one pass over `Monitor.__iter__`. -/
def Monitor.yielded {α : Type} (m : Monitor α) : List α :=
  m.iter.map Prod.fst

/-- The sequence of progress-callback invocations issued by one pass over
`Monitor.__iter__`, in order. -/
def Monitor.updates {α : Type} (m : Monitor α) : List Update :=
  m.iter.filterMap Prod.snd

/-- A period specification within the scope of the specification's claims:
absent, an integer of at least 1, or a fraction in the half-open interval
from 0 (exclusive) to 1 (inclusive). Outside this scope the Python code can
raise (integer period 0 divides by zero), which the total model does not
represent. -/
def Period.valid : Period → Bool
  | Period.none => true
  | Period.int p => decide (1 ≤ p)
  | Period.frac f => decide (0 < f) && decide (f ≤ 1)

/-- A dense numeric array with an explicit dimension list (its shape) and data
indexed by multi-indices, embedding a numpy ndarray / torch tensor of floats
(float values modelled as exact rationals). Entries at out-of-range indices
are irrelevant to every claim. -/
structure NdArray where
  shape : List ℕ
  data : List ℕ → ℚ

/-- A dense boolean array, embedding the numpy array produced by an
elementwise comparison. -/
structure BoolArray where
  shape : List ℕ
  data : List ℕ → Bool

/-- Embeds `normalize(x) = x / 255` applied elementwise to an array (the name
`normalize` itself is taken by the mathematical library). -/
def normalizeArr (x : NdArray) : NdArray :=
  { shape := x.shape, data := fun ix => x.data ix / 255 }

/-- Modelled from the library boundary: `cv2.resize` with relative factors
computes each target dimension as the source dimension times the factor,
rounded to the nearest integer. -/
def scaleDim (s : ℚ) (n : ℕ) : ℕ := (ratTrunc (s * (n : ℚ) + mkRat 1 2)).toNat

/-- An abstract interpolation backend: given the source array, the target
shape and a target index, it produces the value of the output pixel. The
claims under scrutiny depend only on shapes and on the final thresholding,
never on the numeric content of an interpolation, so the kernel is kept
abstract. -/
def Interp : Type := NdArray → List ℕ → List ℕ → ℚ

/-- Embeds `cv2.resize(full_img, None, fx=s, fy=s, interpolation=INTER_CUBIC)`
on an H-by-W-by-C array: both spatial dimensions are scaled by `s`, the
channel count is preserved, and pixel values come from the abstract cubic
interpolation backend. -/
def cv2Resize (interp : Interp) (s : ℚ) (a : NdArray) : NdArray :=
  match a.shape with
  | [h, w, c] =>
    { shape := [scaleDim s h, scaleDim s w, c]
    , data := fun ix => interp a [scaleDim s h, scaleDim s w, c] ix }
  | _ => a

/-- Embeds `np.transpose(img, axes=[2, 0, 1])` on a 3-dimensional array:
layout goes from height-width-channel to channel-height-width. -/
def transpose201 (a : NdArray) : NdArray :=
  { shape :=
      match a.shape with
      | [h, w, c] => [c, h, w]
      | sh => sh
  , data := fun ix =>
      match ix with
      | [i, j, k] => a.data [j, k, i]
      | ix => a.data ix }

/-- Embeds `torch.from_numpy(img).unsqueeze(0)`: a leading batch dimension of
size 1 is added. -/
def unsqueeze0 (a : NdArray) : NdArray :=
  { shape := 1 :: a.shape, data := fun ix => a.data ix.tail }

/-- The loaded segmentation model, an opaque pure function on tensors
(evaluation mode and the no-gradient context have no observable effect in a
pure model). -/
structure Net where
  eval : NdArray → NdArray

/-- Embeds `y.squeeze(0)`: the leading dimension is dropped when it has
size 1, otherwise the tensor is unchanged. -/
def squeeze0 (a : NdArray) : NdArray :=
  match a.shape with
  | 1 :: rest => { shape := rest, data := fun ix => a.data (0 :: ix) }
  | _ => a

/-- Embeds the `transforms.Compose([ToPILImage(), Resize((h, w)), ToTensor()])`
chain: a channel-first tensor (3-dimensional, or 2-dimensional for a bare
grayscale map) is resized to the target spatial size `(h, w)`, keeping its
channel count (`ToTensor` reintroduces a channel axis for grayscale input);
pixel values come from the abstract interpolation backend. `ToPILImage`
rejects other ranks, which the model maps to `Option.none`. -/
def tfResize (interp : Interp) (h w : ℕ) (a : NdArray) : Option NdArray :=
  match a.shape with
  | [c, _, _] =>
    Option.some { shape := [c, h, w], data := fun ix => interp a [c, h, w] ix }
  | [_, _] =>
    Option.some { shape := [1, h, w], data := fun ix => interp a [1, h, w] ix }
  | _ => Option.none

/-- Re-inserts index 0 at every position where the given shape has a
dimension of size 1: maps an index into a squeezed array back to an index
into the original array. -/
def unsqueezeIndex : List ℕ → List ℕ → List ℕ
  | [], _ => []
  | d :: ds, ix =>
    if d = 1 then 0 :: unsqueezeIndex ds ix
    else
      match ix with
      | [] => 0 :: unsqueezeIndex ds []
      | i :: is => i :: unsqueezeIndex ds is

/-- Embeds `proba.squeeze()`: every dimension of size 1 is removed from the
shape. -/
def squeezeAll (a : NdArray) : NdArray :=
  { shape := a.shape.filter (fun d => decide (d ≠ 1))
  , data := fun ix => a.data (unsqueezeIndex a.shape ix) }

/-- Embeds the elementwise strict comparison `mask_np > out_threshold`. -/
def gtArray (a : NdArray) (t : ℚ) : BoolArray :=
  { shape := a.shape, data := fun ix => decide (t < a.data ix) }

/-- The probability map `mask_np` computed by `predict_img` just before the
final threshold comparison: shape unpacking of the input, `cv2.resize` by the
scale factor, conversion to float and normalization, transposition to
channel-first layout, batch dimension, model evaluation, removal of the batch
dimension, resize back to the native height and width, and `squeeze()`.
Failure of shape unpacking (an input without exactly three axes) and a
model output whose rank `ToPILImage` rejects are `Option.none`. -/
def probaResized (cv2interp tfinterp : Interp) (net : Net) (full_img : NdArray)
    (scale_factor : ℚ) : Option NdArray :=
  match full_img.shape with
  | [height, width, _channel] =>
    let img := cv2Resize cv2interp scale_factor full_img
    let img2 := normalizeArr img
    let img3 := transpose201 img2
    let x := unsqueeze0 img3
    let y := net.eval x
    let proba := squeeze0 y
    match tfResize tfinterp height width proba with
    | Option.some p => Option.some (squeezeAll p)
    | Option.none => Option.none
  | _ => Option.none

/-- Embeds `predict_img(net, full_img, scale_factor, out_threshold)`: the
resized probability map compared elementwise, strictly, against the
threshold. -/
def predict_img (cv2interp tfinterp : Interp) (net : Net) (full_img : NdArray)
    (scale_factor out_threshold : ℚ) : Option BoolArray :=
  (probaResized cv2interp tfinterp net full_img scale_factor).map
    (fun p => gtArray p out_threshold)

/-! Helper lemmas about the monitor. -/

theorem ratTrunc_eq_floor (q : ℚ) (h : 0 ≤ q) : ratTrunc q = ⌊q⌋ := by
  unfold ratTrunc
  rw [Int.tdiv_eq_ediv (Rat.num_nonneg.mpr h) (by positivity)]
  rw [Rat.floor_def]

theorem Monitor.iterFrom_map_fst {α : Type} (m : Monitor α) (total : ℕ) :
    ∀ (l : List α) (i : ℕ), (m.iterFrom total i l).map Prod.fst = l := by
  intro l
  induction l with
  | nil => intro i; rfl
  | cons v rest ih =>
    intro i
    simp only [Monitor.iterFrom, List.map_cons, ih]

theorem Monitor.iterFrom_get? {α : Type} (m : Monitor α) (total : ℕ) :
    ∀ (l : List α) (i j : ℕ),
      (m.iterFrom total i l).get? j =
        (l.get? j).map (fun v =>
          (v, if m.reportsAt total (i + j) then Option.some (m.updateAt total (i + j))
              else Option.none)) := by
  intro l
  induction l with
  | nil => intro i j; simp [Monitor.iterFrom]
  | cons v rest ih =>
    intro i j
    cases j with
    | zero => simp [Monitor.iterFrom]
    | succ j =>
      have harith : i + 1 + j = i + (j + 1) := by omega
      simp only [Monitor.iterFrom, List.get?_cons_succ, ih (i + 1) j, harith]

theorem Monitor.iterFrom_updates_mem {α : Type} (m : Monitor α) (total : ℕ) :
    ∀ (l : List α) (i : ℕ) (u : Update),
      u ∈ (m.iterFrom total i l).filterMap Prod.snd →
        ∃ j, i ≤ j ∧ j < i + l.length ∧ m.reportsAt total j = true ∧
          u = m.updateAt total j := by
  intro l
  induction l with
  | nil => intro i u hu; simp [Monitor.iterFrom] at hu
  | cons v rest ih =>
    intro i u hu
    simp only [Monitor.iterFrom, List.filterMap_cons] at hu
    by_cases hrep : m.reportsAt total i
    · rw [if_pos hrep] at hu
      rcases List.mem_cons.mp hu with h | h
      · exact ⟨i, le_refl i, by simp, hrep, h⟩
      · obtain ⟨j, hij, hjl, hj⟩ := ih (i + 1) u h
        exact ⟨j, by omega, by simp at hjl ⊢; omega, hj⟩
    · rw [if_neg hrep] at hu
      obtain ⟨j, hij, hjl, hj⟩ := ih (i + 1) u hu
      exact ⟨j, by omega, by simp at hjl ⊢; omega, hj⟩

theorem Monitor.iterFrom_updates_pairwise {α : Type} (m : Monitor α) (total : ℕ)
    (hmono : ∀ j k : ℕ, j ≤ k →
      (m.updateAt total j).progress ≤ (m.updateAt total k).progress) :
    ∀ (l : List α) (i : ℕ),
      List.Pairwise (fun a b : Update => a.progress ≤ b.progress)
        ((m.iterFrom total i l).filterMap Prod.snd) := by
  intro l
  induction l with
  | nil => intro i; simp [Monitor.iterFrom]
  | cons v rest ih =>
    intro i
    simp only [Monitor.iterFrom, List.filterMap_cons]
    by_cases hrep : m.reportsAt total i
    · rw [if_pos hrep]
      refine List.Pairwise.cons ?_ (ih (i + 1))
      intro u hu
      obtain ⟨j, hij, _, _, hju⟩ := m.iterFrom_updates_mem total rest (i + 1) u hu
      rw [hju]
      exact hmono i j (by omega)
    · rw [if_neg hrep]
      exact ih (i + 1)

theorem Monitor.updateAt_progress_bounds {α : Type} (m : Monitor α) (total j : ℕ)
    (h0 : 0 ≤ m.start) (hse : m.start < m.«end») (hj : j < total) :
    m.start ≤ (m.updateAt total j).progress ∧
      (m.updateAt total j).progress < m.«end» := by
  have htotn : 0 < total := by omega
  have htot : (0 : ℚ) < (total : ℚ) := by exact_mod_cast htotn
  have hr0 : (0 : ℚ) ≤ (j : ℚ) / (total : ℚ) := div_nonneg (Nat.cast_nonneg j) htot.le
  have hr1 : (j : ℚ) / (total : ℚ) < 1 := (div_lt_one htot).mpr (by exact_mod_cast hj)
  have hd : (0 : ℚ) ≤ ((m.«end» : ℚ) - (m.start : ℚ)) := by
    have : (m.start : ℚ) ≤ (m.«end» : ℚ) := by exact_mod_cast hse.le
    linarith
  have hstep : (m.start : ℚ) ≤ (m.start : ℚ) +
      ((m.«end» : ℚ) - (m.start : ℚ)) * ((j : ℚ) / (total : ℚ)) :=
    le_add_of_nonneg_right (mul_nonneg hd hr0)
  have hq0 : (0 : ℚ) ≤ (m.start : ℚ) +
      ((m.«end» : ℚ) - (m.start : ℚ)) * ((j : ℚ) / (total : ℚ)) := by
    have : (0 : ℚ) ≤ (m.start : ℚ) := by exact_mod_cast h0
    linarith
  have hprog : (m.updateAt total j).progress =
      ⌊(m.start : ℚ) + ((m.«end» : ℚ) - (m.start : ℚ)) * ((j : ℚ) / (total : ℚ))⌋ := by
    unfold Monitor.updateAt Monitor.relativeProgress
    exact ratTrunc_eq_floor _ hq0
  constructor
  · rw [hprog]
    exact Int.le_floor.mpr hstep
  · rw [hprog]
    apply Int.floor_lt.mpr
    have hdpos : (0 : ℚ) < ((m.«end» : ℚ) - (m.start : ℚ)) := by
      have : (m.start : ℚ) < (m.«end» : ℚ) := by exact_mod_cast hse
      linarith
    have := mul_lt_mul_of_pos_left hr1 hdpos
    rw [mul_one] at this
    linarith

theorem Monitor.updateAt_progress_mono {α : Type} (m : Monitor α) (total : ℕ)
    (h0 : 0 ≤ m.start) (hse : m.start ≤ m.«end») :
    ∀ j k : ℕ, j ≤ k →
      (m.updateAt total j).progress ≤ (m.updateAt total k).progress := by
  intro j k hjk
  have hd : (0 : ℚ) ≤ ((m.«end» : ℚ) - (m.start : ℚ)) := by
    have : (m.start : ℚ) ≤ (m.«end» : ℚ) := by exact_mod_cast hse
    linarith
  have hr : (j : ℚ) / (total : ℚ) ≤ (k : ℚ) / (total : ℚ) :=
    div_le_div_of_le (Nat.cast_nonneg total) (by exact_mod_cast hjk)
  have hr0 : ∀ n : ℕ, (0 : ℚ) ≤ (n : ℚ) / (total : ℚ) := fun n =>
    div_nonneg (Nat.cast_nonneg n) (Nat.cast_nonneg total)
  have hs0 : (0 : ℚ) ≤ (m.start : ℚ) := by exact_mod_cast h0
  have hq : (m.start : ℚ) + ((m.«end» : ℚ) - (m.start : ℚ)) * ((j : ℚ) / (total : ℚ)) ≤
      (m.start : ℚ) + ((m.«end» : ℚ) - (m.start : ℚ)) * ((k : ℚ) / (total : ℚ)) := by
    have := mul_le_mul_of_nonneg_left hr hd
    linarith
  unfold Monitor.updateAt Monitor.relativeProgress
  rw [ratTrunc_eq_floor _ (by have := mul_nonneg hd (hr0 j); linarith),
    ratTrunc_eq_floor _ (by have := mul_nonneg hd (hr0 k); linarith)]
  exact Int.floor_le_floor hq

/-! Theorems for the claims about the progress monitor. -/

/-- C1: for every finite, re-enumerable source sequence and every period
specification (absent, an integer of at least 1, or a fraction in the
interval from 0 exclusive to 1 inclusive), iterating the monitor yields
exactly the elements of the source, unchanged, in their original order, with
no omissions and no duplicates. -/
theorem monitor_yields_source_exactly {α : Type} (m : Monitor α)
    (hv : m.period.valid = true) : m.yielded = m.iterable := by
  unfold Monitor.yielded Monitor.iter
  exact m.iterFrom_map_fst m.len m.iterable 0

/-- C2: for every wrapped sequence of positive length and every index where a
report fires, the callback invocation is paired with (issued immediately
before yielding) the element at that index, its status label is
`<prefix> (<i+1>/<N>).`, and its integer progress value is
`start + (end - start) * (i / N)` truncated toward zero. -/
theorem monitor_report_label_and_progress {α : Type} (m : Monitor α) (i : ℕ)
    (hN : 0 < m.len) (hi : i < m.len)
    (hrep : m.reportsAt m.len i = true) :
    m.iter.get? i = (m.iterable.get? i).map (fun v =>
      (v, Option.some
        { progress := ratTrunc ((m.start : ℚ) +
            ((m.«end» : ℚ) - (m.start : ℚ)) * ((i : ℚ) / (m.len : ℚ)))
        , statusComment :=
            m.pfx ++ " (" ++ toString (i + 1) ++ "/" ++ toString m.len ++ ")." })) := by
  unfold Monitor.iter
  rw [m.iterFrom_get? m.len m.iterable 0 i]
  simp only [Nat.zero_add, hrep, if_true]
  rfl

/-- C3: for every source of positive length and every fractional period `f`
in the interval from 0 exclusive to 1 inclusive, the effective integer period
equals `max (floor (f * N)) 1`, and a report fires at index `i` exactly when
`i` is divisible by that period. -/
theorem monitor_fractional_period {α : Type} (m : Monitor α) (f : ℚ)
    (hp : m.period = Period.frac f) (hf0 : 0 < f) (hf1 : f ≤ 1)
    (hN : 0 < m.len) :
    m.getPeriod m.len = Option.some (max ⌊f * (m.len : ℚ)⌋ 1) ∧
    ∀ i : ℕ, (m.reportsAt m.len i = true ↔
      (i : ℤ) % max ⌊f * (m.len : ℚ)⌋ 1 = 0) := by
  have h1 : m.getPeriod m.len = Option.some (max (ratTrunc (f * (m.len : ℚ))) 1) := by
    unfold Monitor.getPeriod
    rw [hp]
  have hgp : m.getPeriod m.len = Option.some (max ⌊f * (m.len : ℚ)⌋ 1) := by
    rw [h1, ratTrunc_eq_floor _ (mul_nonneg hf0.le (Nat.cast_nonneg _))]
  refine ⟨hgp, fun i => ?_⟩
  unfold Monitor.reportsAt
  rw [hgp]
  simp

/-- C6: for every wrapped sequence of positive length and every valid period
specification, the first yielded element (index 0) triggers exactly one
progress-callback invocation: the report condition holds at index 0 and the
first entry of the iteration pairs the first source element with exactly one
update. -/
theorem monitor_first_element_reports {α : Type} (m : Monitor α)
    (hN : 0 < m.len) (hv : m.period.valid = true) :
    m.reportsAt m.len 0 = true ∧
    m.iter.get? 0 = (m.iterable.get? 0).map
      (fun v => (v, Option.some (m.updateAt m.len 0))) := by
  have hrep : m.reportsAt m.len 0 = true := by
    unfold Monitor.reportsAt
    cases m.getPeriod m.len with
    | none => rfl
    | some p => simp
  refine ⟨hrep, ?_⟩
  unfold Monitor.iter
  rw [m.iterFrom_get? m.len m.iterable 0 0]
  simp [hrep]

/-- C7: for an empty source, with any period specification, iterating the
monitor yields no elements and invokes the callback zero times; moreover for
a fractional period the clamped effective period is at least 1, so no modulo
by zero is ever performed (and the ratio division is never reached because
the loop body never runs). -/
theorem monitor_empty_source {α : Type} (m : Monitor α)
    (h : m.iterable = []) :
    m.iter = [] ∧ m.yielded = [] ∧ m.updates = [] ∧
    ∀ f : ℚ, m.period = Period.frac f →
      ∃ p : ℤ, m.getPeriod m.len = Option.some p ∧ 1 ≤ p := by
  have hiter : m.iter = [] := by
    unfold Monitor.iter
    rw [h]
    rfl
  refine ⟨hiter, by simp [Monitor.yielded, hiter],
    by simp [Monitor.updates, hiter], ?_⟩
  intro f hf
  refine ⟨max (ratTrunc (f * (m.len : ℚ))) 1, ?_, le_max_right _ _⟩
  unfold Monitor.getPeriod
  rw [hf]

/-- C8: for every wrapped sequence of positive length with integer bounds
`0 ≤ start < end`, every progress value reported during the iteration lies in
the half-open interval from `start` to `end` (so the final value need not
reach `end`), and successive reported values are non-decreasing. -/
theorem monitor_progress_in_range {α : Type} (m : Monitor α)
    (h0 : 0 ≤ m.start) (hse : m.start < m.«end») (hN : 0 < m.len) :
    (∀ u ∈ m.updates, m.start ≤ u.progress ∧ u.progress < m.«end») ∧
    List.Pairwise (fun a b : Update => a.progress ≤ b.progress) m.updates := by
  constructor
  · intro u hu
    obtain ⟨j, _, hjl, _, hju⟩ :=
      m.iterFrom_updates_mem m.len m.iterable 0 u hu
    rw [hju]
    exact m.updateAt_progress_bounds m.len j h0 hse (by simpa using hjl)
  · exact m.iterFrom_updates_pairwise m.len
      (m.updateAt_progress_mono m.len h0 hse.le) m.iterable 0

/-! Concrete instances used by the witnesses. -/

/-- A 3-element monitored source with an integer period of 2. -/
def mC1 : Monitor ℕ :=
  { iterable := [5, 6, 7], start := 0, «end» := 100
  , period := Period.int 2, pfx := "w" }

/-- The specification's worked example: 10 elements, progress range 20 to 75,
report on every element. -/
def mC2 : Monitor ℕ :=
  { iterable := List.range 10, start := 20, «end» := 75
  , period := Period.none, pfx := "Images" }

/-- A 20-element source with fractional period one twentieth (0.05). -/
def mC3a : Monitor ℕ :=
  { iterable := List.range 20, start := 0, «end» := 100
  , period := Period.frac (mkRat 1 20), pfx := "f" }

/-- A 3-element source with fractional period one twentieth (0.05). -/
def mC3b : Monitor ℕ :=
  { iterable := List.range 3, start := 0, «end» := 100
  , period := Period.frac (mkRat 1 20), pfx := "f" }

/-- A 3-element monitored source with an integer period of 2. -/
def mC6 : Monitor ℕ :=
  { iterable := [10, 20, 30], start := 0, «end» := 100
  , period := Period.int 2, pfx := "p" }

/-- An empty monitored source with a fractional period. -/
def mC7 : Monitor ℕ :=
  { iterable := [], start := 0, «end» := 100
  , period := Period.frac (mkRat 1 20), pfx := "e" }

/-- The specification's end-to-end scenario: 4 elements, range 0 to 100,
period absent. -/
def mC8 : Monitor ℕ :=
  { iterable := List.range 4, start := 0, «end» := 100
  , period := Period.none, pfx := "s" }

/-- Witness for C1 at a concrete monitor: the hypothesis holds and the pass
yields exactly the source list. -/
theorem monitor_yields_source_exactly_witness :
    mC1.period.valid = true ∧ mC1.yielded = mC1.iterable ∧ mC1.iterable = [5, 6, 7] :=
  ⟨by decide, monitor_yields_source_exactly mC1 (by decide), rfl⟩

/-- Witness for C2 at the specification's example (start 20, end 75, ten
elements, report everywhere): at index 9 the iteration pairs element 9 with
one callback whose label is the formatted string and whose progress value is
the truncated interpolation; numerically the reported values are 69 at index
9 and 20 at index 0. -/
theorem monitor_report_label_and_progress_witness :
    mC2.iter.get? 9 = Option.some (9, Option.some
      { progress := ratTrunc ((20 : ℚ) + ((75 : ℚ) - (20 : ℚ)) * ((9 : ℚ) / (10 : ℚ)))
      , statusComment := "Images" ++ " (" ++ toString (9 + 1) ++ "/" ++ toString mC2.len ++ ")." }) ∧
    ratTrunc ((20 : ℚ) + ((75 : ℚ) - (20 : ℚ)) * ((9 : ℚ) / (10 : ℚ))) = 69 ∧
    ratTrunc ((20 : ℚ) + ((75 : ℚ) - (20 : ℚ)) * ((0 : ℚ) / (10 : ℚ))) = 20 ∧
    "Images" ++ " (" ++ toString (9 + 1) ++ "/" ++ toString mC2.len ++ ")." = "Images (10/10)." :=
  ⟨monitor_report_label_and_progress mC2 9 (by decide) (by decide) (by decide),
   by norm_num [ratTrunc]; decide,
   by norm_num [ratTrunc],
   by decide⟩

/-- Witness for C3 at the specification's two examples: with 20 elements and
fraction one twentieth the effective period is 1, and with 3 elements and the
same fraction the floor is 0 and is clamped to 1. -/
theorem monitor_fractional_period_witness :
    mC3a.getPeriod mC3a.len = Option.some (max ⌊mkRat 1 20 * (mC3a.len : ℚ)⌋ 1) ∧
    mC3a.getPeriod mC3a.len = Option.some 1 ∧
    mC3b.getPeriod mC3b.len = Option.some (max ⌊mkRat 1 20 * (mC3b.len : ℚ)⌋ 1) ∧
    mC3b.getPeriod mC3b.len = Option.some 1 ∧
    ⌊mkRat 1 20 * ((3 : ℕ) : ℚ)⌋ = 0 := by
  have ha := (monitor_fractional_period mC3a (mkRat 1 20) rfl
    (by decide) (by decide) (by decide)).1
  have hb := (monitor_fractional_period mC3b (mkRat 1 20) rfl
    (by decide) (by decide) (by decide)).1
  refine ⟨ha, ?_, hb, ?_, ?_⟩
  · rw [ha]
    norm_num [mC3a, Monitor.len, Rat.mkRat_eq_divInt, Rat.divInt_eq_div]
  · rw [hb]
    norm_num [mC3b, Monitor.len, Rat.mkRat_eq_divInt, Rat.divInt_eq_div]
  · norm_num [Rat.mkRat_eq_divInt, Rat.divInt_eq_div]

/-- Witness for C6 at a concrete monitor of positive length with integer
period 2: the report condition holds at index 0 and the first entry pairs the
first element with exactly one update. -/
theorem monitor_first_element_reports_witness :
    mC6.reportsAt mC6.len 0 = true ∧
    mC6.iter.get? 0 = Option.some (10, Option.some (mC6.updateAt mC6.len 0)) :=
  monitor_first_element_reports mC6 (by decide) (by decide)

/-- Witness for C7 at a concrete empty monitor with fractional period: the
iteration is empty, nothing is yielded, no callback fires, and the effective
period computed from the zero total is the clamped value 1. -/
theorem monitor_empty_source_witness :
    mC7.iter = [] ∧ mC7.yielded = [] ∧ mC7.updates = [] ∧
    mC7.getPeriod mC7.len = Option.some 1 := by
  have h := monitor_empty_source mC7 rfl
  refine ⟨h.1, h.2.1, h.2.2.1, ?_⟩
  norm_num [mC7, Monitor.getPeriod, Monitor.len, ratTrunc]

/-- Witness for C8 at the specification's end-to-end scenario (4 elements,
range 0 to 100, period absent): all reported values lie in the half-open
range and are non-decreasing; concretely the reported progress values are
0, 25, 50 and 75. -/
theorem monitor_progress_in_range_witness :
    ((∀ u ∈ mC8.updates, mC8.start ≤ u.progress ∧ u.progress < mC8.«end») ∧
      List.Pairwise (fun a b : Update => a.progress ≤ b.progress) mC8.updates) ∧
    mC8.updates.map Update.progress = [0, 25, 50, 75] := by
  refine ⟨monitor_progress_in_range mC8 (by decide) (by decide) (by decide), ?_⟩
  simp only [mC8, Monitor.updates, Monitor.iter, Monitor.iterFrom, Monitor.len,
    Monitor.reportsAt, Monitor.getPeriod, Monitor.updateAt, Monitor.relativeProgress,
    ratTrunc, List.filterMap_cons, List.map_cons]
  norm_num [ratTrunc]

/-! Theorems for the claims about the inference pipeline. -/

/-- C4 (amended): for every input image of native shape `(H, W, C)` with
`H, W ≥ 2` and every scale factor in the interval from 0 exclusive to 1
inclusive whose scaled dimensions are nonzero, given a model honouring the
single-foreground-channel contract (output shape `(1, 1, h, w)`), the mask
returned by `predict_img` has shape exactly `(H, W)` — the native resolution,
never the scaled one. The original claim allowed `H, W ≥ 1`; it fails for a
singleton spatial dimension because the final `squeeze()` removes every
dimension of size 1, including a native spatial dimension of 1. -/
theorem predict_mask_native_shape (ci ti : Interp) (net : Net) (img : NdArray)
    (s t : ℚ) (H W C : ℕ)
    (hsh : img.shape = [H, W, C]) (hH : 2 ≤ H) (hW : 2 ≤ W)
    (hs0 : 0 < s) (hs1 : s ≤ 1)
    (hsH : scaleDim s H ≠ 0) (hsW : scaleDim s W ≠ 0)
    (hnet : ∀ x : NdArray, ∃ h w : ℕ, (net.eval x).shape = [1, 1, h, w]) :
    (predict_img ci ti net img s t).map BoolArray.shape = Option.some [H, W] := by
  obtain ⟨h', w', hy⟩ :=
    hnet (unsqueeze0 (transpose201 (normalizeArr (cv2Resize ci s img))))
  have hH1 : ¬ (H = 1) := by omega
  have hW1 : ¬ (W = 1) := by omega
  simp only [predict_img, probaResized, hsh]
  simp only [squeeze0, hy]
  simp only [tfResize]
  simp [squeezeAll, gtArray, List.filter, hH1, hW1]

/-- An interpolation backend that returns 0 everywhere. -/
def constInterp : Interp := fun _ _ _ => 0

/-- A concrete 2-by-2 three-channel input image. -/
def imgW : NdArray := { shape := [2, 2, 3], data := fun _ => 0 }

/-- A concrete model honouring the contract: batched single-channel output of
spatial size 2 by 2. -/
def netW : Net :=
  { eval := fun _ => { shape := [1, 1, 2, 2], data := fun _ => 0 } }

/-- A single-row input image of native shape (1, 2, 3): height 1, width 2,
three channels. -/
def imgRow : NdArray := { shape := [1, 2, 3], data := fun _ => 0 }

/-- A concrete model honouring the contract for the single-row image:
batched single-channel output of spatial size 1 by 2. -/
def netRow : Net :=
  { eval := fun _ => { shape := [1, 1, 1, 2], data := fun _ => 0 } }

/-- Counterexample to C4 as stated: the single-row image `imgRow` has native
shape (1, 2, 3) with height and width at least 1, scale factor 1 lies in the
allowed interval and keeps both scaled dimensions nonzero, and the model
honours the single-channel contract at the pipeline's input tensor, yet the
returned mask has shape (2,), not (1, 2): the final `squeeze()` also removes
the singleton native height. -/
theorem predict_mask_native_shape_counterexample :
    imgRow.shape = [1, 2, 3] ∧
    (0 : ℚ) < 1 ∧ (1 : ℚ) ≤ 1 ∧ scaleDim 1 1 ≠ 0 ∧ scaleDim 1 2 ≠ 0 ∧
    (netRow.eval (unsqueeze0 (transpose201 (normalizeArr
      (cv2Resize constInterp 1 imgRow))))).shape = [1, 1, 1, 2] ∧
    (predict_img constInterp constInterp netRow imgRow 1 0).map BoolArray.shape
      = Option.some [2] ∧
    Option.some ([2] : List ℕ) ≠ Option.some ([1, 2] : List ℕ) :=
  ⟨rfl, by decide, by decide,
   by norm_num [scaleDim, ratTrunc, Rat.mkRat_eq_divInt, Rat.divInt_eq_div] <;> decide,
   by norm_num [scaleDim, ratTrunc, Rat.mkRat_eq_divInt, Rat.divInt_eq_div] <;> decide,
   rfl, rfl, by decide⟩

/-- Witness for the amended C4 at a concrete instance: a 2-by-2 image at
scale one half produces a mask of native shape (2, 2). -/
theorem predict_mask_native_shape_witness :
    (predict_img constInterp constInterp netW imgW (mkRat 1 2) 0).map
      BoolArray.shape = Option.some [2, 2] :=
  predict_mask_native_shape constInterp constInterp netW imgW (mkRat 1 2) 0
    2 2 3 rfl (by decide) (by decide) (by decide) (by decide)
    (by norm_num [scaleDim, ratTrunc, Rat.mkRat_eq_divInt, Rat.divInt_eq_div] <;> decide)
    (by norm_num [scaleDim, ratTrunc, Rat.mkRat_eq_divInt, Rat.divInt_eq_div] <;> decide)
    (fun x => ⟨2, 2, rfl⟩)

/-- C5: the returned mask is the elementwise strict comparison of the resized
probability map against the threshold: a pixel is foreground exactly when its
raw (unclamped) value strictly exceeds the threshold, and a pixel exactly
equal to the threshold is background. -/
theorem predict_threshold_strict (ci ti : Interp) (net : Net) (img : NdArray)
    (s t : ℚ) (p : NdArray)
    (hp : probaResized ci ti net img s = Option.some p) :
    predict_img ci ti net img s t = Option.some (gtArray p t) ∧
    ∀ ix : List ℕ, ((gtArray p t).data ix = true ↔ t < p.data ix) ∧
      (p.data ix = t → (gtArray p t).data ix = false) := by
  constructor
  · unfold predict_img
    rw [hp]
    rfl
  · intro ix
    constructor
    · simp [gtArray]
    · intro h
      simp [gtArray, h]

/-- An interpolation backend with designated boundary values: one half at the
first output pixel, two (a raw value above the nominal probability range) at
the second, zero elsewhere. -/
def tfInterpW : Interp := fun _ _ ix =>
  match ix with
  | [_, 0, 0] => mkRat 1 2
  | [_, 0, 1] => mkRat 2 1
  | _ => 0

/-- The concrete resized probability map produced by the pipeline on `imgW`
with the boundary-valued backend. -/
def probaW : NdArray :=
  (probaResized constInterp tfInterpW netW imgW 1).getD
    { shape := [], data := fun _ => 0 }

/-- Witness for C5 at a concrete instance with threshold one half: the pixel
whose raw value equals the threshold is background, and the pixel whose raw
value is 2 — outside the nominal probability range, demonstrating the absence
of clamping — is foreground. -/
theorem predict_threshold_strict_witness :
    predict_img constInterp tfInterpW netW imgW 1 (mkRat 1 2)
      = Option.some (gtArray probaW (mkRat 1 2)) ∧
    probaW.data [0, 0] = mkRat 1 2 ∧
    (gtArray probaW (mkRat 1 2)).data [0, 0] = false ∧
    probaW.data [0, 1] = mkRat 2 1 ∧
    (gtArray probaW (mkRat 1 2)).data [0, 1] = true :=
  ⟨(predict_threshold_strict constInterp tfInterpW netW imgW 1 (mkRat 1 2)
      probaW rfl).1,
   rfl, by decide, rfl, by decide⟩

/-- C9: `predict_img` is deterministic — two invocations with identical
model, image, scale factor and threshold return the same mask (equal as
arrays: same shape and pixelwise-equal data). -/
theorem predict_deterministic (ci ti : Interp) (net : Net) (img : NdArray)
    (s t : ℚ) (m₁ m₂ : BoolArray)
    (h₁ : predict_img ci ti net img s t = Option.some m₁)
    (h₂ : predict_img ci ti net img s t = Option.some m₂) :
    m₁ = m₂ ∧ m₁.shape = m₂.shape ∧ ∀ ix : List ℕ, m₁.data ix = m₂.data ix := by
  have h := Option.some.inj (h₁.symm.trans h₂)
  exact ⟨h, by rw [h], fun ix => by rw [h]⟩

/-- The concrete mask produced by the pipeline on `imgW`. -/
def maskW : BoolArray :=
  (predict_img constInterp tfInterpW netW imgW 1 (mkRat 1 2)).getD
    { shape := [], data := fun _ => false }

/-- Witness for C9 at a concrete instance: two identical invocations produce
the same mask. -/
theorem predict_deterministic_witness :
    maskW = maskW ∧ maskW.shape = maskW.shape ∧
    maskW.data [0, 0] = maskW.data [0, 0] := by
  have h := predict_deterministic constInterp tfInterpW netW imgW 1
    (mkRat 1 2) maskW maskW rfl rfl
  exact ⟨h.1, h.2.1, h.2.2 [0, 0]⟩

/-- C10: an input whose shape has fewer than 3 axes makes the pipeline fail
at the initial shape unpacking (no mask is produced), and the pipeline gets
past that step only for inputs whose shape is exactly
height-by-width-by-channel. -/
theorem predict_requires_channel_axis (ci ti : Interp) (net : Net)
    (img : NdArray) (s t : ℚ) :
    (img.shape.length < 3 →
      probaResized ci ti net img s = Option.none ∧
      predict_img ci ti net img s t = Option.none) ∧
    ((probaResized ci ti net img s).isSome = true →
      ∃ H W C : ℕ, img.shape = [H, W, C]) := by
  constructor
  · intro hlen
    have hnone : probaResized ci ti net img s = Option.none := by
      rcases hsh : img.shape with _ | ⟨a, _ | ⟨b, _ | ⟨c, _ | ⟨d, l⟩⟩⟩⟩
      · simp [probaResized, hsh]
      · simp [probaResized, hsh]
      · simp [probaResized, hsh]
      · rw [hsh] at hlen
        simp at hlen
      · simp [probaResized, hsh]
    exact ⟨hnone, by simp [predict_img, hnone]⟩
  · intro hsome
    rcases hsh : img.shape with _ | ⟨a, _ | ⟨b, _ | ⟨c, _ | ⟨d, l⟩⟩⟩⟩
    · have : probaResized ci ti net img s = Option.none := by
        simp [probaResized, hsh]
      rw [this] at hsome
      simp at hsome
    · have : probaResized ci ti net img s = Option.none := by
        simp [probaResized, hsh]
      rw [this] at hsome
      simp at hsome
    · have : probaResized ci ti net img s = Option.none := by
        simp [probaResized, hsh]
      rw [this] at hsome
      simp at hsome
    · exact ⟨a, b, c, rfl⟩
    · have : probaResized ci ti net img s = Option.none := by
        simp [probaResized, hsh]
      rw [this] at hsome
      simp at hsome

/-- A 2-dimensional (grayscale, no channel axis) input array. -/
def imgBad : NdArray := { shape := [4, 5], data := fun _ => 0 }

/-- Witness for C10 at a concrete 2-dimensional input: the pipeline produces
no probability map and no mask. -/
theorem predict_requires_channel_axis_witness :
    probaResized constInterp constInterp netW imgBad 1 = Option.none ∧
    predict_img constInterp constInterp netW imgBad 1 (mkRat 1 2)
      = Option.none :=
  (predict_requires_channel_axis constInterp constInterp netW imgBad 1
    (mkRat 1 2)).1 (by decide)
